import Mathlib

/-
Verification of the EventEmitter (ES2015 port) listener registry.

The embedding below follows `src/EventEmitter.js`.  JavaScript artefacts are
rendered as follows:

* `this._events` (a JS `Map` from event name to an array of listener records)
  becomes an insertion-ordered association list `List (String × List
  ListenerRecord)`; `Map.set` replaces the value of an existing key in place
  and appends a fresh key at the end, which is exactly `setAssoc`.
* A listener record (`new Map([['listener', f], ['once', b]])`) becomes the
  structure `ListenerRecord`.  Callback functions are identified by a `Nat`
  id; JS `===` on functions is equality of ids.
* A `RegExp` is modelled by its `test` predicate `String → Bool`.
* Listener return values and the once-sentinel live in `JsVal`, the JS
  primitives compared with `===` in the dispatch loop.
* A callback body is given by an environment `Env : Nat → Behavior`: the
  registry calls the body performs while it runs (the reentrant surface:
  add / add-once / remove), followed by its return value.  The argument
  array passed through `emitEvent` does not influence any registry state,
  so it is not carried around.
-/

set_option autoImplicit false

namespace EventEmitterJs

/-- JS primitive values, as used for listener return values and the
once-sentinel.  `===` on these primitives is structural equality. -/
inductive JsVal where
  | bool (b : Bool)
  | num (n : Int)
  | str (s : String)
  | undef
deriving DecidableEq

/-- One listener record, the inner `Map` `{'listener' ↦ f, 'once' ↦ b}`.
The callback is identified by a numeric id (JS function identity). -/
structure ListenerRecord where
  listener : Nat
  once : Bool
deriving DecidableEq

/-- A RegExp, modelled by its `test` method. -/
def Pattern : Type := String → Bool

/-- The `evt` argument of `getListeners` and the operations built on it:
either a plain string key or a `RegExp` (`evt instanceof RegExp`). -/
inductive EvtArg where
  | str (k : String)
  | pat (p : Pattern)

/-- The `listener` argument of `addListener`: a raw callback function, or an
already wrapped record `Map` as passed by `addOnceListener`
(`typeof listener == "object"`). -/
inductive ListenerArg where
  | raw (f : Nat)
  | wrapped (r : ListenerRecord)

/-- The emitter instance: `this._events` plus the optional own property
`this._onceReturnValue` (absent until `setOnceReturnValue` is called). -/
structure EmitterState where
  events : List (String × List ListenerRecord)
  onceReturnValue : Option JsVal
deriving DecidableEq

/-- `Map.prototype.get` on `_events` (`undefined` becomes `none`). -/
def lookupEvents : List (String × List ListenerRecord) → String →
    Option (List ListenerRecord)
  | [], _ => none
  | e :: rest, k => if e.1 = k then some e.2 else lookupEvents rest k

/-- `Map.prototype.set` on `_events`: replace the value of an existing key in
place, otherwise append the new key at the end (JS Map insertion order). -/
def setAssoc : List (String × List ListenerRecord) → String →
    List ListenerRecord → List (String × List ListenerRecord)
  | [], k, l => [(k, l)]
  | e :: rest, k, l => if e.1 = k then (k, l) :: rest else e :: setAssoc rest k l

def eventsGet? (s : EmitterState) (k : String) : Option (List ListenerRecord) :=
  lookupEvents s.events k

/-- Reading an array known to be present (absent keys read as `[]`). -/
def eventsGet (s : EmitterState) (k : String) : List ListenerRecord :=
  (eventsGet? s k).getD []

def eventsSet (s : EmitterState) (k : String) (l : List ListenerRecord) :
    EmitterState :=
  EmitterState.mk (setAssoc s.events k l) s.onceReturnValue

/-- Whether `_events` has an entry for `k`. -/
def hasKey (s : EmitterState) (k : String) : Bool :=
  (eventsGet? s k).isSome

/-- The value returned by `getListeners`: the listener array itself in the
plain-key branch, a key→array `Map` in the RegExp branch. -/
inductive GetListenersResult where
  | arr (l : List ListenerRecord)
  | map (m : List (String × List ListenerRecord))

/-- `getListeners(evt)`.  RegExp branch: collect every materialized entry
whose key passes `evt.test`.  Plain-key branch:
`this._events.get(evt) || (this._events.set(evt, []) && this._events.get(evt))`,
i.e. return the existing array, or lazily materialize an empty one. -/
def getListeners (evt : EvtArg) (s : EmitterState) :
    GetListenersResult × EmitterState :=
  match evt with
  | .pat p => (.map (s.events.filter (fun e => p e.1)), s)
  | .str k =>
    match eventsGet? s k with
    | some l => (.arr l, s)
    | none => (.arr [], eventsSet s k [])

/-- `getListenersAsObject(evt)`: wrap an array result (the plain-key branch,
where `evt` is the string key) into a one-entry `Map`; pass a `Map` result
through.  The `(.arr _, .pat _)` case is unreachable because the RegExp
branch of `getListeners` always returns a `Map`. -/
def getListenersAsObject (evt : EvtArg) (s : EmitterState) :
    List (String × List ListenerRecord) × EmitterState :=
  let ls := getListeners evt s
  match ls.1, evt with
  | .arr l, .str k => ([(k, l)], ls.2)
  | .arr _, .pat _ => ([], ls.2)
  | .map m, _ => (m, ls.2)

/-- `listeners.findIndex(map => map.get('listener') === listener)` for a raw
callback argument. -/
def findRecIdx : List ListenerRecord → Nat → Int
  | [], _ => -1
  | r :: rest, f =>
    if r.listener = f then 0
    else if findRecIdx rest f = -1 then -1 else findRecIdx rest f + 1

/-- `indexOfListener(listeners, listener)`.  The stored `'listener'` value is
always a callback function; when the search argument is itself a wrapped
record `Map` (the `addOnceListener` path), `===` compares a function with a
freshly allocated `Map` object and is always false, so the search fails. -/
def indexOfListener (listeners : List ListenerRecord) (listener : ListenerArg) :
    Int :=
  match listener with
  | .raw f => findRecIdx listeners f
  | .wrapped _ => -1

/-- The record pushed by `addListener`: the wrapped record as-is, or a fresh
`{listener, once: false}` record around a raw callback. -/
def toRecord (listener : ListenerArg) : ListenerRecord :=
  match listener with
  | .raw f => ListenerRecord.mk f false
  | .wrapped r => r

/-- Body of the `addListener` loop for one resolved key.  The `Map` values
handed out by `getListenersAsObject` are live array references and the push
goes through `this._events.get(key)`, so the current state is read here. -/
def addListenerStep (listener : ListenerArg) (st : EmitterState)
    (e : String × List ListenerRecord) : EmitterState :=
  if indexOfListener (eventsGet st e.1) listener = -1 then
    eventsSet st e.1 (eventsGet st e.1 ++ [toRecord listener])
  else st

/-- `addListener(evt, listener)`. -/
def addListener (evt : EvtArg) (listener : ListenerArg) (s : EmitterState) :
    EmitterState :=
  let ls := getListenersAsObject evt s
  ls.1.foldl (addListenerStep listener) ls.2

/-- `addOnceListener(evt, listener)`: `addListener` with a pre-wrapped
`{listener, once: true}` record. -/
def addOnceListener (evt : EvtArg) (f : Nat) (s : EmitterState) : EmitterState :=
  addListener evt (.wrapped (ListenerRecord.mk f true)) s

/-- `splice(i, 1)`. -/
def spliceOut (l : List ListenerRecord) (i : Nat) : List ListenerRecord :=
  l.take i ++ l.drop (i + 1)

/-- Body of the `removeListener` loop for one resolved key. -/
def removeListenerStep (listener : ListenerArg) (st : EmitterState)
    (e : String × List ListenerRecord) : EmitterState :=
  let index := indexOfListener (eventsGet st e.1) listener
  if index = -1 then st
  else eventsSet st e.1 (spliceOut (eventsGet st e.1) index.toNat)

/-- `removeListener(evt, listener)`. -/
def removeListener (evt : EvtArg) (listener : ListenerArg) (s : EmitterState) :
    EmitterState :=
  let ls := getListenersAsObject evt s
  ls.1.foldl (removeListenerStep listener) ls.2

/-- `defineEvent(evt)`: materialize through `getListeners`. -/
def defineEvent (k : String) (s : EmitterState) : EmitterState :=
  (getListeners (.str k) s).2

/-- `defineEvents(evts)`. -/
def defineEvents (ks : List String) (s : EmitterState) : EmitterState :=
  ks.foldl (fun st k => defineEvent k st) s

/-- `setOnceReturnValue(value)`. -/
def setOnceReturnValue (v : JsVal) (s : EmitterState) : EmitterState :=
  EmitterState.mk s.events (some v)

/-- `_getOnceReturnValue()`: the own property if set, else `true`. -/
def getOnceReturnValue (s : EmitterState) : JsVal :=
  match s.onceReturnValue with
  | some v => v
  | none => JsVal.bool true

/-- The `evt` argument of `removeEvent`: the `typeof`/`instanceof` three-way
branch.  `other` stands for every value that is neither a string primitive
nor a `RegExp` instance — a number, a plain object, `null`, or the absent
argument — all of which the code sends to the clear-all branch. -/
inductive RemoveArg where
  | str (k : String)
  | pat (p : Pattern)
  | other

/-- `removeEvent(evt)`.  In the RegExp branch the source filters with
`e => evt.test()` — `test` is called with NO argument, so the candidate key
`e` is ignored and the pattern is tested against the string `"undefined"`
(JS coerces the missing argument to the string `"undefined"`). -/
def removeEvent (evt : RemoveArg) (s : EmitterState) : EmitterState :=
  match evt with
  | .str k => EmitterState.mk (s.events.filter (fun e => !(e.1 == k))) s.onceReturnValue
  | .pat p =>
    let eventsToDelete := (s.events.map Prod.fst).filter (fun _ => p "undefined")
    EmitterState.mk (s.events.filter (fun e => !(eventsToDelete.contains e.1)))
      s.onceReturnValue
  | .other => EmitterState.mk [] s.onceReturnValue

/-- One registry call a listener body may perform while it runs during a
dispatch (the reentrant surface exercised by the specification). -/
inductive RegOp where
  | opAdd (evt : EvtArg) (f : Nat)
  | opAddOnce (evt : EvtArg) (f : Nat)
  | opRemove (evt : EvtArg) (f : Nat)

/-- The semantics of one callback: the registry calls its body performs, in
order, and its return value. -/
structure Behavior where
  ops : List RegOp
  ret : JsVal

/-- Assignment of a behavior to every callback id. -/
def Env : Type := Nat → Behavior

def applyOp (s : EmitterState) (op : RegOp) : EmitterState :=
  match op with
  | .opAdd evt f => addListener evt (.raw f) s
  | .opAddOnce evt f => addOnceListener evt f s
  | .opRemove evt f => removeListener evt (.raw f) s

/-- `listener.call(this, ...)`: run the callback body's registry calls on the
current instance and produce its return value. -/
def invoke (env : Env) (f : Nat) (s : EmitterState) : EmitterState × JsVal :=
  ((env f).ops.foldl applyOp s, (env f).ret)

/-- State effect of one iteration of the dispatch loop over the snapshot:
once-records are removed (under the matched key `event`) before the call;
afterwards, a return value `===`-equal to the once-sentinel removes the
listener — note: addressed by the ORIGINAL `evt` argument, not by the
matched key. -/
def emitStepState (env : Env) (evt : EvtArg) (event : String)
    (s : EmitterState) (r : ListenerRecord) : EmitterState :=
  let s1 := if r.once then removeListener (.str event) (.raw r.listener) s else s
  let s2 := (invoke env r.listener s1).1
  if (invoke env r.listener s1).2 = getOnceReturnValue s2 then
    removeListener evt (.raw r.listener) s2
  else s2

/-- One dispatch-loop iteration, also recording the invoked callback id.
The first component is exactly the state effect of the source; the second
is ghost instrumentation giving the invocation order. -/
def emitStep (env : Env) (evt : EvtArg) (event : String)
    (acc : EmitterState × List Nat) (r : ListenerRecord) :
    EmitterState × List Nat :=
  (emitStepState env evt event acc.1 r, acc.2 ++ [r.listener])

/-- Dispatch for one matched key: `listeners.slice()` snapshots the live
array at the moment this key's turn starts (the `Map` values are live
references, mutated in place by the in-callback operations), then the loop
runs over that snapshot. -/
def emitKeyStep (env : Env) (evt : EvtArg) (acc : EmitterState × List Nat)
    (e : String × List ListenerRecord) : EmitterState × List Nat :=
  let copyOfListeners := eventsGet acc.1 e.1
  copyOfListeners.foldl (emitStep env evt e.1) acc

/-- `emitEvent(evt, args)` instrumented with the invocation trace. -/
def emitEventTrace (env : Env) (evt : EvtArg) (s : EmitterState) :
    EmitterState × List Nat :=
  let ls := getListenersAsObject evt s
  ls.1.foldl (emitKeyStep env evt) (ls.2, [])

/-- `emitEvent(evt, args)`: the state effect. -/
def emitEvent (env : Env) (evt : EvtArg) (s : EmitterState) : EmitterState :=
  (emitEventTrace env evt s).1

/-- First-occurrence removal by callback identity: the composite
`findIndex` + `splice(index, 1)` step of `removeListener`. -/
def removeFirstByListener : List ListenerRecord → Nat → List ListenerRecord
  | [], _ => []
  | r :: rest, f =>
    if r.listener = f then rest else r :: removeFirstByListener rest f

/-- Survival predicate of one dispatch pass for pure listeners: a record is
kept iff it is not a once-record and its return value is not the sentinel. -/
def keepAfterEmit (env : Env) (S : JsVal) (r : ListenerRecord) : Bool :=
  !r.once && decide ((env r.listener).ret ≠ S)

/-- No key's sequence holds two records for the same callback. -/
def DedupState (s : EmitterState) : Prop :=
  ∀ k : String, ((eventsGet s k).map (fun r => r.listener)).Nodup

/-! ### Basic lemmas about the `_events` map -/

theorem lookupEvents_setAssoc_self (es : List (String × List ListenerRecord))
    (k : String) (l : List ListenerRecord) :
    lookupEvents (setAssoc es k l) k = some l := by
  induction es with
  | nil => simp [setAssoc, lookupEvents]
  | cons e rest ih =>
    by_cases h : e.1 = k
    · simp [setAssoc, lookupEvents, h]
    · simp [setAssoc, lookupEvents, h, ih]

theorem lookupEvents_setAssoc_ne (es : List (String × List ListenerRecord))
    (k k' : String) (l : List ListenerRecord) (hne : k' ≠ k) :
    lookupEvents (setAssoc es k l) k' = lookupEvents es k' := by
  have hkk' : ¬ k = k' := fun hh => hne hh.symm
  induction es with
  | nil => simp only [setAssoc, lookupEvents, if_neg hkk']
  | cons e rest ih =>
    by_cases h : e.1 = k
    · have he : ¬ e.1 = k' := by rw [h]; exact hkk'
      simp only [setAssoc, if_pos h, lookupEvents, if_neg hkk', if_neg he]
    · by_cases h' : e.1 = k'
      · simp only [setAssoc, if_neg h, lookupEvents, if_pos h']
      · simp only [setAssoc, if_neg h, lookupEvents, if_neg h', ih]

theorem setAssoc_lookup_self (es : List (String × List ListenerRecord))
    (k : String) (l : List ListenerRecord) (h : lookupEvents es k = some l) :
    setAssoc es k l = es := by
  induction es with
  | nil => simp [lookupEvents] at h
  | cons e rest ih =>
    by_cases hk : e.1 = k
    · simp only [lookupEvents, if_pos hk] at h
      injection h with h2
      cases e with
      | mk a b =>
        simp only [setAssoc, if_pos hk]
        dsimp only at hk h2
        rw [← hk, ← h2]
    · simp only [lookupEvents, if_neg hk] at h
      simp only [setAssoc, if_neg hk, ih h]

theorem setAssoc_setAssoc (es : List (String × List ListenerRecord))
    (k : String) (a b : List ListenerRecord) :
    setAssoc (setAssoc es k a) k b = setAssoc es k b := by
  induction es with
  | nil => simp [setAssoc]
  | cons e rest ih =>
    by_cases h : e.1 = k
    · simp [setAssoc, h]
    · simp [setAssoc, h, ih]

theorem eventsGet?_set_self (s : EmitterState) (k : String)
    (l : List ListenerRecord) : eventsGet? (eventsSet s k l) k = some l :=
  lookupEvents_setAssoc_self s.events k l

theorem eventsGet?_set_ne (s : EmitterState) (k k' : String)
    (l : List ListenerRecord) (hne : k' ≠ k) :
    eventsGet? (eventsSet s k l) k' = eventsGet? s k' :=
  lookupEvents_setAssoc_ne s.events k k' l hne

theorem eventsGet_set_self (s : EmitterState) (k : String)
    (l : List ListenerRecord) : eventsGet (eventsSet s k l) k = l := by
  simp [eventsGet, eventsGet?_set_self]

theorem eventsGet_set_ne (s : EmitterState) (k k' : String)
    (l : List ListenerRecord) (hne : k' ≠ k) :
    eventsGet (eventsSet s k l) k' = eventsGet s k' := by
  simp [eventsGet, eventsGet?_set_ne s k k' l hne]

theorem eventsSet_self (s : EmitterState) (k : String) (l : List ListenerRecord)
    (h : eventsGet? s k = some l) : eventsSet s k l = s := by
  cases s with
  | mk es once => simpa [eventsSet] using setAssoc_lookup_self es k l h

theorem eventsSet_eventsSet (s : EmitterState) (k : String)
    (a b : List ListenerRecord) :
    eventsSet (eventsSet s k a) k b = eventsSet s k b := by
  simp [eventsSet, setAssoc_setAssoc]

theorem onceReturnValue_eventsSet (s : EmitterState) (k : String)
    (l : List ListenerRecord) :
    (eventsSet s k l).onceReturnValue = s.onceReturnValue := rfl

theorem getOnceReturnValue_eventsSet (s : EmitterState) (k : String)
    (l : List ListenerRecord) :
    getOnceReturnValue (eventsSet s k l) = getOnceReturnValue s := rfl

theorem eventsGet_of_mem (s : EmitterState) (k : String)
    (l : List ListenerRecord) (h : eventsGet? s k = some l) :
    eventsGet s k = l := by
  simp [eventsGet, h]

/-! ### `findRecIdx` and splicing -/

theorem findRecIdx_ne_or_nonneg (l : List ListenerRecord) (f : Nat) :
    findRecIdx l f = -1 ∨ 0 ≤ findRecIdx l f := by
  induction l with
  | nil => exact Or.inl rfl
  | cons r rest ih =>
    by_cases h : r.listener = f
    · right; simp [findRecIdx, h]
    · by_cases h1 : findRecIdx rest f = -1
      · left; simp [findRecIdx, h, h1]
      · right
        rcases ih with hc | hc
        · exact absurd hc h1
        · simp only [findRecIdx, if_neg h, if_neg h1]
          omega

theorem findRecIdx_eq_neg_one_iff (l : List ListenerRecord) (f : Nat) :
    findRecIdx l f = -1 ↔ ∀ r ∈ l, r.listener ≠ f := by
  induction l with
  | nil => simp [findRecIdx]
  | cons r rest ih =>
    by_cases h : r.listener = f
    · simp [findRecIdx, h]
    · by_cases h1 : findRecIdx rest f = -1
      · simp only [findRecIdx, if_neg h, if_pos h1, List.mem_cons, true_iff]
        intro r' hr'
        rcases hr' with hr' | hr'
        · rw [hr']; exact h
        · exact ih.mp h1 r' hr'
      · have hge : 0 ≤ findRecIdx rest f := by
          rcases findRecIdx_ne_or_nonneg rest f with hc | hc
          · exact absurd hc h1
          · exact hc
        have hne1 : findRecIdx (r :: rest) f ≠ -1 := by
          simp only [findRecIdx, if_neg h, if_neg h1]
          omega
        constructor
        · intro hcon; exact absurd hcon hne1
        · intro hall
          exact absurd (ih.mpr fun r' hr' => hall r' (List.mem_cons_of_mem _ hr')) h1

theorem splice_find_eq_removeFirst (l : List ListenerRecord) (f : Nat) :
    (if findRecIdx l f = -1 then l else spliceOut l (findRecIdx l f).toNat)
      = removeFirstByListener l f := by
  induction l with
  | nil => simp [findRecIdx, removeFirstByListener]
  | cons r rest ih =>
    by_cases h : r.listener = f
    · have h0 : findRecIdx (r :: rest) f = 0 := by simp [findRecIdx, h]
      rw [h0]
      simp [spliceOut, removeFirstByListener, h]
    · by_cases h1 : findRecIdx rest f = -1
      · have htop : findRecIdx (r :: rest) f = -1 := by simp [findRecIdx, h, h1]
        rw [if_pos htop]
        have hr : rest = removeFirstByListener rest f := by rw [← ih, if_pos h1]
        simp only [removeFirstByListener, if_neg h]
        exact congrArg (r :: ·) hr
      · have hge : 0 ≤ findRecIdx rest f := by
          rcases findRecIdx_ne_or_nonneg rest f with hc | hc
          · exact absurd hc h1
          · exact hc
        have hstep : findRecIdx (r :: rest) f = findRecIdx rest f + 1 := by
          simp [findRecIdx, h, h1]
        have hne1 : findRecIdx (r :: rest) f ≠ -1 := by rw [hstep]; omega
        rw [if_neg hne1, hstep]
        have htn : (findRecIdx rest f + 1).toNat = (findRecIdx rest f).toNat + 1 := by
          omega
        rw [htn]
        have hsp : spliceOut (r :: rest) ((findRecIdx rest f).toNat + 1)
            = r :: spliceOut rest (findRecIdx rest f).toNat := by
          simp [spliceOut]
        rw [hsp]
        have hr : spliceOut rest (findRecIdx rest f).toNat
            = removeFirstByListener rest f := by rw [← ih, if_neg h1]
        simp only [removeFirstByListener, if_neg h]
        exact congrArg (r :: ·) hr

theorem removeFirst_not_mem (l : List ListenerRecord) (f : Nat)
    (h : ∀ r ∈ l, r.listener ≠ f) : removeFirstByListener l f = l := by
  induction l with
  | nil => rfl
  | cons r rest ih =>
    have hr : r.listener ≠ f := h r (List.mem_cons_self r rest)
    simp [removeFirstByListener, hr,
      ih fun r' hr' => h r' (List.mem_cons_of_mem _ hr')]

theorem removeFirst_append (kept rest : List ListenerRecord)
    (r : ListenerRecord) (h : ∀ x ∈ kept, x.listener ≠ r.listener) :
    removeFirstByListener (kept ++ r :: rest) r.listener = kept ++ rest := by
  induction kept with
  | nil => simp [removeFirstByListener]
  | cons x kept' ih =>
    have hx : x.listener ≠ r.listener := h x (List.mem_cons_self x kept')
    simp [removeFirstByListener, hx,
      ih fun x' hx' => h x' (List.mem_cons_of_mem _ hx')]

/-! ### Resolution of the `evt` argument -/

theorem getListeners_str_present (k : String) (s : EmitterState)
    (l : List ListenerRecord) (h : eventsGet? s k = some l) :
    getListeners (.str k) s = (.arr l, s) := by
  simp [getListeners, h]

theorem getListeners_str_absent (k : String) (s : EmitterState)
    (h : eventsGet? s k = none) :
    getListeners (.str k) s = (.arr [], eventsSet s k []) := by
  simp [getListeners, h]

theorem getListenersAsObject_str_present (k : String) (s : EmitterState)
    (l : List ListenerRecord) (h : eventsGet? s k = some l) :
    getListenersAsObject (.str k) s = ([(k, l)], s) := by
  simp [getListenersAsObject, getListeners_str_present k s l h]

theorem getListenersAsObject_str_absent (k : String) (s : EmitterState)
    (h : eventsGet? s k = none) :
    getListenersAsObject (.str k) s = ([(k, [])], eventsSet s k []) := by
  simp [getListenersAsObject, getListeners_str_absent k s h]

theorem getListenersAsObject_pat (p : Pattern) (s : EmitterState) :
    getListenersAsObject (.pat p) s
      = (s.events.filter (fun e => p e.1), s) := rfl

theorem getListenersAsObject_snd (evt : EvtArg) (s : EmitterState) :
    (getListenersAsObject evt s).2 = (getListeners evt s).2 := by
  cases evt with
  | str k =>
    cases h : eventsGet? s k with
    | some l => simp [getListenersAsObject_str_present k s l h,
        getListeners_str_present k s l h]
    | none => simp [getListenersAsObject_str_absent k s h,
        getListeners_str_absent k s h]
  | pat p => rfl

/-! ### `removeListener` and `addListener` on a present plain key -/

theorem removeListener_str (k : String) (f : Nat) (s : EmitterState)
    (cur : List ListenerRecord) (h : eventsGet? s k = some cur) :
    removeListener (.str k) (.raw f) s
      = eventsSet s k (removeFirstByListener cur f) := by
  rw [removeListener]
  rw [getListenersAsObject_str_present k s cur h]
  simp only [List.foldl_cons, List.foldl_nil]
  rw [removeListenerStep]
  rw [eventsGet_of_mem s k cur h]
  simp only [indexOfListener]
  rw [← splice_find_eq_removeFirst cur f]
  by_cases h1 : findRecIdx cur f = -1
  · rw [if_pos h1, if_pos h1]
    exact (eventsSet_self s k cur h).symm
  · rw [if_neg h1, if_neg h1]

theorem addListener_str_raw (k : String) (f : Nat) (s : EmitterState)
    (l : List ListenerRecord) (h : eventsGet? s k = some l) :
    addListener (.str k) (.raw f) s
      = if findRecIdx l f = -1
        then eventsSet s k (l ++ [ListenerRecord.mk f false])
        else s := by
  rw [addListener]
  rw [getListenersAsObject_str_present k s l h]
  simp only [List.foldl_cons, List.foldl_nil]
  rw [addListenerStep]
  rw [eventsGet_of_mem s k l h]
  simp only [indexOfListener, toRecord]

theorem addListener_str_raw_absent (k : String) (f : Nat) (s : EmitterState)
    (h : eventsGet? s k = none) :
    addListener (.str k) (.raw f) s
      = eventsSet s k [ListenerRecord.mk f false] := by
  rw [addListener]
  rw [getListenersAsObject_str_absent k s h]
  simp only [List.foldl_cons, List.foldl_nil]
  rw [addListenerStep]
  rw [eventsGet_set_self s k []]
  simp only [indexOfListener, findRecIdx, if_pos rfl, toRecord]
  rw [eventsSet_eventsSet]
  rfl

theorem addOnceListener_str (k : String) (f : Nat) (s : EmitterState)
    (l : List ListenerRecord) (h : eventsGet? s k = some l) :
    addOnceListener (.str k) f s
      = eventsSet s k (l ++ [ListenerRecord.mk f true]) := by
  rw [addOnceListener, addListener]
  rw [getListenersAsObject_str_present k s l h]
  simp only [List.foldl_cons, List.foldl_nil]
  rw [addListenerStep]
  rw [eventsGet_of_mem s k l h]
  simp only [indexOfListener, toRecord]
  simp

/-! ### Pure callbacks and fold projections -/

theorem invoke_pure (env : Env) (f : Nat) (s : EmitterState)
    (h : (env f).ops = []) : invoke env f s = (s, (env f).ret) := by
  simp [invoke, h]

theorem foldl_emitStep_fst (env : Env) (evt : EvtArg) (event : String) :
    ∀ (l : List ListenerRecord) (acc : EmitterState × List Nat),
      (l.foldl (emitStep env evt event) acc).1
        = l.foldl (emitStepState env evt event) acc.1 := by
  intro l
  induction l with
  | nil => intro acc; rfl
  | cons r rest ih => intro acc; rw [List.foldl_cons, List.foldl_cons, ih]; rfl

theorem foldl_emitStep_trace (env : Env) (evt : EvtArg) (event : String) :
    ∀ (l : List ListenerRecord) (acc : EmitterState × List Nat),
      (l.foldl (emitStep env evt event) acc).2
        = acc.2 ++ l.map (fun r => r.listener) := by
  intro l
  induction l with
  | nil => intro acc; simp
  | cons r rest ih =>
    intro acc
    rw [List.foldl_cons, ih]
    simp [emitStep]

/-! ### Dispatch over a pure listener list -/

theorem nodup_dissect (kept rest' : List ListenerRecord) (r : ListenerRecord)
    (hnd : ((kept ++ r :: rest').map (fun x => x.listener)).Nodup) :
    (∀ x ∈ kept, x.listener ≠ r.listener) ∧
    (∀ x ∈ rest', x.listener ≠ r.listener) ∧
    ((kept ++ rest').map (fun x => x.listener)).Nodup := by
  rw [List.map_append, List.map_cons, List.nodup_append] at hnd
  obtain ⟨n1, n2, dis⟩ := hnd
  rw [List.nodup_cons] at n2
  obtain ⟨hnr, n3⟩ := n2
  refine ⟨?_, ?_, ?_⟩
  · intro x hx heq
    exact dis (List.mem_map_of_mem _ hx)
      (by rw [heq]; exact List.mem_cons_self _ _)
  · intro x hx heq
    exact hnr (heq ▸ List.mem_map_of_mem _ hx)
  · rw [List.map_append, List.nodup_append]
    exact ⟨n1, n3, fun a ha hb => dis ha (List.mem_cons_of_mem _ hb)⟩

theorem emit_fold_pure (env : Env) (k : String) (S : JsVal) :
    ∀ (rest kept : List ListenerRecord) (st : EmitterState),
      eventsGet? st k = some (kept ++ rest) →
      getOnceReturnValue st = S →
      (∀ r ∈ rest, (env r.listener).ops = []) →
      ((kept ++ rest).map (fun x => x.listener)).Nodup →
      rest.foldl (emitStepState env (.str k) k) st
        = eventsSet st k (kept ++ rest.filter (keepAfterEmit env S)) := by
  intro rest
  induction rest with
  | nil =>
    intro kept st h hS hpure hnd
    rw [List.append_nil] at h
    simp only [List.foldl_nil, List.filter_nil, List.append_nil]
    exact (eventsSet_self st k kept h).symm
  | cons r rest' ih =>
    intro kept st h hS hpure hnd
    obtain ⟨hknotr, hrnotr, hnd'⟩ := nodup_dissect kept rest' r hnd
    have hops_r : (env r.listener).ops = [] :=
      hpure r (List.mem_cons_self r rest')
    have hpure' : ∀ x ∈ rest', (env x.listener).ops = [] :=
      fun x hx => hpure x (List.mem_cons_of_mem _ hx)
    rw [List.foldl_cons]
    by_cases ho : r.once
    · -- once-record: removed before the call, under the matched key
      have hstep : emitStepState env (.str k) k st r
          = eventsSet st k (kept ++ rest') := by
        have hrm1 : removeListener (.str k) (.raw r.listener) st
            = eventsSet st k (kept ++ rest') := by
          rw [removeListener_str k r.listener st (kept ++ r :: rest') h,
            removeFirst_append kept rest' r hknotr]
        simp only [emitStepState, ho, if_true]
        rw [hrm1]
        rw [invoke_pure env r.listener _ hops_r]
        by_cases hret : (env r.listener).ret
            = getOnceReturnValue (eventsSet st k (kept ++ rest'))
        · rw [if_pos hret]
          rw [removeListener_str k r.listener (eventsSet st k (kept ++ rest'))
            (kept ++ rest') (eventsGet?_set_self st k _)]
          rw [removeFirst_not_mem (kept ++ rest') r.listener
            (fun x hx => (List.mem_append.mp hx).elim (hknotr x) (hrnotr x))]
          rw [eventsSet_eventsSet]
        · rw [if_neg hret]
      rw [hstep]
      have hkeep : keepAfterEmit env S r = false := by
        simp [keepAfterEmit, ho]
      rw [List.filter_cons, hkeep]
      simp only [Bool.false_eq_true, if_false]
      rw [ih kept (eventsSet st k (kept ++ rest')) (eventsGet?_set_self st k _)
        (by rw [getOnceReturnValue_eventsSet]; exact hS) hpure' hnd']
      rw [eventsSet_eventsSet]
    · -- plain record
      simp only [Bool.not_eq_true] at ho
      rw [show emitStepState env (.str k) k st r
          = (if (env r.listener).ret = getOnceReturnValue st
             then removeListener (.str k) (.raw r.listener) st else st) by
        simp only [emitStepState, ho, Bool.false_eq_true, if_false]
        rw [invoke_pure env r.listener st hops_r]]
      by_cases hret : (env r.listener).ret = getOnceReturnValue st
      · rw [if_pos hret]
        rw [removeListener_str k r.listener st (kept ++ r :: rest') h,
          removeFirst_append kept rest' r hknotr]
        have hkeep : keepAfterEmit env S r = false := by
          rw [hS] at hret
          simp [keepAfterEmit, ho, hret]
        rw [List.filter_cons, hkeep]
        simp only [Bool.false_eq_true, if_false]
        rw [ih kept (eventsSet st k (kept ++ rest')) (eventsGet?_set_self st k _)
          (by rw [getOnceReturnValue_eventsSet]; exact hS) hpure' hnd']
        rw [eventsSet_eventsSet]
      · rw [if_neg hret]
        have hkeep : keepAfterEmit env S r = true := by
          rw [hS] at hret
          simp [keepAfterEmit, ho, hret]
        rw [List.filter_cons, hkeep]
        simp only [if_true]
        have happ : kept ++ r :: rest' = (kept ++ [r]) ++ rest' := by
          rw [List.append_assoc, List.singleton_append]
        rw [happ] at h hnd
        rw [ih (kept ++ [r]) st h hS hpure' hnd]
        rw [List.append_assoc, List.singleton_append]

theorem emit_str_pure (env : Env) (k : String) (s : EmitterState)
    (l : List ListenerRecord) (hl : eventsGet? s k = some l)
    (hpure : ∀ r ∈ l, (env r.listener).ops = [])
    (hnd : (l.map (fun x => x.listener)).Nodup) :
    emitEvent env (.str k) s
      = eventsSet s k (l.filter (keepAfterEmit env (getOnceReturnValue s))) := by
  simp only [emitEvent, emitEventTrace]
  rw [getListenersAsObject_str_present k s l hl]
  simp only [List.foldl_cons, List.foldl_nil, emitKeyStep]
  rw [eventsGet_of_mem s k l hl]
  rw [foldl_emitStep_fst]
  exact emit_fold_pure env k (getOnceReturnValue s) l [] s hl rfl hpure hnd

theorem emit_trace_str (env : Env) (k : String) (s : EmitterState)
    (l : List ListenerRecord) (hl : eventsGet? s k = some l) :
    (emitEventTrace env (.str k) s).2 = l.map (fun r => r.listener) := by
  simp only [emitEventTrace]
  rw [getListenersAsObject_str_present k s l hl]
  simp only [List.foldl_cons, List.foldl_nil, emitKeyStep]
  rw [eventsGet_of_mem s k l hl]
  rw [foldl_emitStep_trace]
  rfl

/-! ### Key persistence: no operation but `removeEvent` deletes a key -/

theorem foldl_pres {α β : Type} (P : β → Prop) (g : β → α → β)
    (hg : ∀ st a, P st → P (g st a)) :
    ∀ (l : List α) (s : β), P s → P (l.foldl g s) := by
  intro l
  induction l with
  | nil => intro s hs; exact hs
  | cons a rest ih => intro s hs; exact ih (g s a) (hg s a hs)

theorem hasKey_set_self (s : EmitterState) (k : String)
    (l : List ListenerRecord) : hasKey (eventsSet s k l) k = true := by
  simp [hasKey, eventsGet?_set_self]

theorem hasKey_set_mono (s : EmitterState) (k k' : String)
    (l : List ListenerRecord) (h : hasKey s k = true) :
    hasKey (eventsSet s k' l) k = true := by
  by_cases hk : k = k'
  · rw [hk]; exact hasKey_set_self s k' l
  · rw [hasKey, eventsGet?_set_ne s k' k l hk]; exact h

theorem hasKey_getListeners (evt : EvtArg) (s : EmitterState) (k : String)
    (h : hasKey s k = true) : hasKey ((getListeners evt s).2) k = true := by
  cases evt with
  | pat p => exact h
  | str k' =>
    cases hk : eventsGet? s k' with
    | some l => rw [getListeners_str_present k' s l hk]; exact h
    | none => rw [getListeners_str_absent k' s hk]; exact hasKey_set_mono s k k' [] h

theorem hasKey_glao (evt : EvtArg) (s : EmitterState) (k : String)
    (h : hasKey s k = true) : hasKey ((getListenersAsObject evt s).2) k = true := by
  rw [getListenersAsObject_snd]; exact hasKey_getListeners evt s k h

theorem hasKey_addListenerStep (listener : ListenerArg) (k : String)
    (st : EmitterState) (e : String × List ListenerRecord)
    (h : hasKey st k = true) : hasKey (addListenerStep listener st e) k = true := by
  rw [addListenerStep]
  by_cases hc : indexOfListener (eventsGet st e.1) listener = -1
  · rw [if_pos hc]; exact hasKey_set_mono st k e.1 _ h
  · rw [if_neg hc]; exact h

theorem hasKey_addListener (evt : EvtArg) (listener : ListenerArg)
    (s : EmitterState) (k : String) (h : hasKey s k = true) :
    hasKey (addListener evt listener s) k = true := by
  rw [addListener]
  exact foldl_pres (fun st => hasKey st k = true) (addListenerStep listener)
    (fun st e => hasKey_addListenerStep listener k st e) _ _ (hasKey_glao evt s k h)

theorem hasKey_addOnceListener (evt : EvtArg) (f : Nat) (s : EmitterState)
    (k : String) (h : hasKey s k = true) :
    hasKey (addOnceListener evt f s) k = true :=
  hasKey_addListener evt _ s k h

theorem hasKey_removeListenerStep (listener : ListenerArg) (k : String)
    (st : EmitterState) (e : String × List ListenerRecord)
    (h : hasKey st k = true) : hasKey (removeListenerStep listener st e) k = true := by
  rw [removeListenerStep]
  by_cases hc : indexOfListener (eventsGet st e.1) listener = -1
  · rw [if_pos hc]; exact h
  · rw [if_neg hc]; exact hasKey_set_mono st k e.1 _ h

theorem hasKey_removeListener (evt : EvtArg) (listener : ListenerArg)
    (s : EmitterState) (k : String) (h : hasKey s k = true) :
    hasKey (removeListener evt listener s) k = true := by
  rw [removeListener]
  exact foldl_pres (fun st => hasKey st k = true) (removeListenerStep listener)
    (fun st e => hasKey_removeListenerStep listener k st e) _ _ (hasKey_glao evt s k h)

theorem hasKey_applyOp (k : String) (s : EmitterState) (op : RegOp)
    (h : hasKey s k = true) : hasKey (applyOp s op) k = true := by
  cases op with
  | opAdd evt f => exact hasKey_addListener evt (.raw f) s k h
  | opAddOnce evt f => exact hasKey_addOnceListener evt f s k h
  | opRemove evt f => exact hasKey_removeListener evt (.raw f) s k h

theorem hasKey_invoke (env : Env) (f : Nat) (s : EmitterState) (k : String)
    (h : hasKey s k = true) : hasKey ((invoke env f s).1) k = true := by
  rw [invoke]
  exact foldl_pres (fun st => hasKey st k = true) applyOp
    (fun st op => hasKey_applyOp k st op) _ _ h

theorem hasKey_emitStepState (env : Env) (evt : EvtArg) (event : String)
    (k : String) (s : EmitterState) (r : ListenerRecord)
    (h : hasKey s k = true) : hasKey (emitStepState env evt event s r) k = true := by
  rw [emitStepState]
  have h1 : hasKey (if r.once then removeListener (.str event) (.raw r.listener) s
      else s) k = true := by
    by_cases ho : r.once
    · simp only [ho, if_true]; exact hasKey_removeListener _ _ s k h
    · simp only [ho, if_false]; exact h
  have h2 := hasKey_invoke env r.listener _ k h1
  by_cases hc : (invoke env r.listener (if r.once
      then removeListener (.str event) (.raw r.listener) s else s)).2
      = getOnceReturnValue ((invoke env r.listener (if r.once
      then removeListener (.str event) (.raw r.listener) s else s)).1)
  · rw [if_pos hc]; exact hasKey_removeListener _ _ _ k h2
  · rw [if_neg hc]; exact h2

theorem hasKey_emitEvent (env : Env) (evt : EvtArg) (s : EmitterState)
    (k : String) (h : hasKey s k = true) :
    hasKey (emitEvent env evt s) k = true := by
  rw [emitEvent, emitEventTrace]
  refine foldl_pres (fun acc : EmitterState × List Nat => hasKey acc.1 k = true)
    (emitKeyStep env evt) ?_ _ _ (hasKey_glao evt s k h)
  intro acc e hacc
  rw [emitKeyStep]
  rw [foldl_emitStep_fst]
  exact foldl_pres (fun st => hasKey st k = true)
    (emitStepState env evt e.1)
    (fun st r => hasKey_emitStepState env evt e.1 k st r) _ _ hacc

theorem hasKey_defineEvent (e : String) (s : EmitterState) (k : String)
    (h : hasKey s k = true) : hasKey (defineEvent e s) k = true :=
  hasKey_getListeners (.str e) s k h

theorem hasKey_setOnceReturnValue (v : JsVal) (s : EmitterState) (k : String)
    (h : hasKey s k = true) : hasKey (setOnceReturnValue v s) k = true := h

/-! ### Duplicate-freedom of registration -/

theorem dedup_eventsSet (s : EmitterState) (k : String)
    (l : List ListenerRecord) (h : DedupState s)
    (hl : (l.map (fun r => r.listener)).Nodup) :
    DedupState (eventsSet s k l) := by
  intro k'
  by_cases hk : k' = k
  · rw [hk, eventsGet_set_self]; exact hl
  · rw [eventsGet_set_ne s k k' l hk]; exact h k'

theorem dedup_addListenerStep (f : Nat) (st : EmitterState)
    (e : String × List ListenerRecord) (h : DedupState st) :
    DedupState (addListenerStep (.raw f) st e) := by
  rw [addListenerStep]
  by_cases hc : indexOfListener (eventsGet st e.1) (.raw f) = -1
  · rw [if_pos hc]
    simp only [indexOfListener] at hc
    have hnot := (findRecIdx_eq_neg_one_iff _ f).mp hc
    apply dedup_eventsSet st e.1 _ h
    rw [List.map_append, List.nodup_append]
    refine ⟨h e.1, by simp, ?_⟩
    intro a ha hb
    simp only [toRecord, List.map_cons, List.map_nil, List.mem_singleton] at hb
    obtain ⟨r, hr, hra⟩ := List.mem_map.mp ha
    exact hnot r hr (by rw [hra, hb])
  · rw [if_neg hc]; exact h

theorem dedup_getListeners_snd (evt : EvtArg) (s : EmitterState)
    (h : DedupState s) : DedupState ((getListeners evt s).2) := by
  cases evt with
  | pat p => exact h
  | str k =>
    cases hk : eventsGet? s k with
    | some l => rw [getListeners_str_present k s l hk]; exact h
    | none =>
      rw [getListeners_str_absent k s hk]
      exact dedup_eventsSet s k [] h (by simp)

theorem dedup_addListener_raw (evt : EvtArg) (f : Nat) (s : EmitterState)
    (h : DedupState s) : DedupState (addListener evt (.raw f) s) := by
  rw [addListener]
  refine foldl_pres DedupState (addListenerStep (.raw f))
    (fun st e hst => dedup_addListenerStep f st e hst) _ _ ?_
  rw [getListenersAsObject_snd]
  exact dedup_getListeners_snd evt s h

theorem map_fst_filter (p : Pattern) (es : List (String × List ListenerRecord)) :
    (es.filter (fun e => p e.1)).map Prod.fst = (es.map Prod.fst).filter p := by
  induction es with
  | nil => rfl
  | cons e rest ih =>
    cases hpe : p e.1 with
    | true => simp [List.filter_cons, hpe, ih]
    | false => simp [List.filter_cons, hpe, ih]

/-! ### Claim theorems -/

/-- Claim C1 (code bug evidence).  The claim states that `removeEvent`
with a pattern deletes exactly the materialized keys matching it.  The code
instead calls `evt.test()` with no argument, testing the string
`"undefined"`: a pattern matching exactly `"bar"` deletes nothing — the
materialized matching key `"bar"` survives — while a pattern matching
`"undefined"` (and `"bar"`) deletes every key, including the non-matching
`"foo"`. -/
theorem removeEvent_pattern_tests_undefined :
    removeEvent (RemoveArg.pat (fun t => t == "bar"))
        (EmitterState.mk [("bar", []), ("foo", [])] none)
      = EmitterState.mk [("bar", []), ("foo", [])] none ∧
    removeEvent (RemoveArg.pat (fun t => t == "undefined" || t == "bar"))
        (EmitterState.mk [("bar", []), ("foo", [])] none)
      = EmitterState.mk [] none :=
  ⟨by decide, by decide⟩

/-- Claim C2 (counterexample).  Two `addOnceListener` calls with the same key
and the same callback leave TWO records for that callback: the dedup check
compares the stored callback with the freshly wrapped record `Map`, which is
never `===`-equal, so once-registration is not deduplicated. -/
theorem addOnceListener_no_dedup_cex :
    eventsGet
      (addOnceListener (EvtArg.str "k") 0
        (addOnceListener (EvtArg.str "k") 0 (EmitterState.mk [] none))) "k"
    = [ListenerRecord.mk 0 true, ListenerRecord.mk 0 true] := by decide

/-- Claim C2 (amended).  Deduplication by callback identity holds for
`addListener` with a raw callback: it preserves the no-duplicate invariant
on every key, in any state and for any addressing mode.  `addOnceListener`,
by contrast, always appends its wrapped record, even when the callback is
already registered under the key. -/
theorem dedup_raw_addListener_only (evt : EvtArg) (f : Nat) (s : EmitterState) :
    (DedupState s → DedupState (addListener evt (.raw f) s)) ∧
    (∀ (k : String) (g : Nat) (l : List ListenerRecord),
      eventsGet? s k = some l →
      addOnceListener (.str k) g s
        = eventsSet s k (l ++ [ListenerRecord.mk g true])) :=
  ⟨dedup_addListener_raw evt f s,
   fun k g l hl => addOnceListener_str k g s l hl⟩

theorem dedup_raw_addListener_only_witness :
    DedupState (addListener (EvtArg.str "k") (ListenerArg.raw 3)
      (EmitterState.mk [] none)) ∧
    addOnceListener (EvtArg.str "k") 7 (EmitterState.mk [("k", [])] none)
      = eventsSet (EmitterState.mk [("k", [])] none) "k"
          [ListenerRecord.mk 7 true] :=
  ⟨(dedup_raw_addListener_only (EvtArg.str "k") 3 (EmitterState.mk [] none)).1
      (fun _ => List.Pairwise.nil),
   (dedup_raw_addListener_only (EvtArg.str "k") 3
      (EmitterState.mk [("k", [])] none)).2 "k" 7 [] rfl⟩

/-- Claim C9.  `removeEvent` with any argument that is neither a string nor
a `RegExp` (a number, a plain object, `null`, or the absent argument) takes
the clear-all branch: every event key is deleted, no error is raised, and
the rest of the instance state is untouched. -/
theorem removeEvent_nonstring_nonregex_clears (s : EmitterState) :
    (removeEvent RemoveArg.other s).events = [] ∧
    (removeEvent RemoveArg.other s).onceReturnValue = s.onceReturnValue :=
  ⟨rfl, rfl⟩

/-- Claim C10.  During a pattern emit, sentinel-based removal passes the
ORIGINAL pattern argument to `removeListener`, not the matched key: callback
0 is registered (non-once) under both `"bar"` and `"baz"`, returns the
default sentinel `true` when fired under `"bar"`, and is thereby removed
from BOTH keys — the trace shows it fires only once in the whole emission
(with per-key removal it would fire again under `"baz"`). -/
theorem emit_pattern_sentinel_removes_everywhere :
    emitEventTrace (fun _ => Behavior.mk [] (JsVal.bool true))
      (EvtArg.pat (fun t => t == "bar" || t == "baz"))
      (EmitterState.mk [("bar", [ListenerRecord.mk 0 false]),
                        ("baz", [ListenerRecord.mk 0 false])] none)
    = (EmitterState.mk [("bar", []), ("baz", [])] none, [0]) := by decide

/-- Claim C3.  Snapshot isolation of dispatch on a plain key: whatever
add/remove operations the listener bodies perform while they run (the
environment is arbitrary), the invocation trace of one `emitEvent` is
exactly the listener sequence present when the emission started.  Hence a
not-yet-fired listener removed during the emission still fires, and a
listener added during the emission does not fire in it. -/
theorem emit_snapshot_isolation (env : Env) (k : String) (s : EmitterState)
    (l : List ListenerRecord) (hl : eventsGet? s k = some l) :
    (emitEventTrace env (.str k) s).2 = l.map (fun r => r.listener) ∧
    (∀ r ∈ l, r.listener ∈ (emitEventTrace env (.str k) s).2) ∧
    (∀ f : Nat, f ∉ l.map (fun r => r.listener) →
      f ∉ (emitEventTrace env (.str k) s).2) := by
  have ht := emit_trace_str env k s l hl
  refine ⟨ht, ?_, ?_⟩
  · intro r hr
    rw [ht]
    exact List.mem_map_of_mem _ hr
  · intro f hf
    rw [ht]
    exact hf

theorem emit_snapshot_isolation_witness :
    (emitEventTrace
      (fun n => if n = 1 then
          Behavior.mk [RegOp.opRemove (EvtArg.str "k") 2,
            RegOp.opAdd (EvtArg.str "k") 3] JsVal.undef
        else Behavior.mk [] JsVal.undef)
      (EvtArg.str "k")
      (EmitterState.mk
        [("k", [ListenerRecord.mk 1 false, ListenerRecord.mk 2 false])] none)).2
    = [1, 2] := by
  have h := emit_snapshot_isolation
    (fun n => if n = 1 then
        Behavior.mk [RegOp.opRemove (EvtArg.str "k") 2,
          RegOp.opAdd (EvtArg.str "k") 3] JsVal.undef
      else Behavior.mk [] JsVal.undef)
    "k"
    (EmitterState.mk
      [("k", [ListenerRecord.mk 1 false, ListenerRecord.mk 2 false])] none)
    [ListenerRecord.mk 1 false, ListenerRecord.mk 2 false] (by decide)
  exact h.1.trans (by decide)

/-- Claim C6.  The pattern branch of `getListeners` is a pure read: the
state is returned unchanged, and the returned mapping contains exactly the
already-materialized entries whose key matches the pattern — its key list is
the pattern-filtered list of materialized keys, so no new key is ever
created by pattern addressing. -/
theorem getListeners_pattern_readonly (p : Pattern) (s : EmitterState) :
    (getListeners (.pat p) s).2 = s ∧
    ∀ m, (getListeners (.pat p) s).1 = GetListenersResult.map m →
      (∀ e : String × List ListenerRecord,
        e ∈ m ↔ (e ∈ s.events ∧ p e.1 = true)) ∧
      m.map Prod.fst = (s.events.map Prod.fst).filter p := by
  refine ⟨rfl, ?_⟩
  intro m hm
  have hm' : s.events.filter (fun e => p e.1) = m := by
    have : GetListenersResult.map (s.events.filter (fun e => p e.1))
        = GetListenersResult.map m := hm
    injection this
  rw [← hm']
  exact ⟨fun e => List.mem_filter, map_fst_filter p s.events⟩

theorem getListeners_pattern_readonly_witness :
    ([("ba", ([] : List ListenerRecord))].map Prod.fst)
      = ([("ba", ([] : List ListenerRecord)), ("foo", [])].map Prod.fst).filter
          (fun t => t == "ba") := by
  have h := getListeners_pattern_readonly (fun t => t == "ba")
    (EmitterState.mk [("ba", []), ("foo", [])] none)
  exact (h.2 [("ba", [])] rfl).2

/-- Claim C7.  The plain-key branch of `getListeners` returns the key's
sequence and, when the key is absent, materializes it with an empty sequence
(changing no other key); the materialized entry then persists across every
other public operation — only `removeEvent` deletes keys. -/
theorem getListeners_exact_materializes_persists (k : String) (s : EmitterState) :
    (∀ l, eventsGet? s k = some l → getListeners (.str k) s = (.arr l, s)) ∧
    (eventsGet? s k = none →
      getListeners (.str k) s = (.arr [], eventsSet s k []) ∧
      eventsGet? (eventsSet s k []) k = some [] ∧
      ∀ k', k' ≠ k → eventsGet? (eventsSet s k []) k' = eventsGet? s k') ∧
    hasKey ((getListeners (.str k) s).2) k = true ∧
    (∀ evt arg, hasKey (addListener evt arg ((getListeners (.str k) s).2)) k = true) ∧
    (∀ evt f, hasKey (addOnceListener evt f ((getListeners (.str k) s).2)) k = true) ∧
    (∀ evt arg, hasKey (removeListener evt arg ((getListeners (.str k) s).2)) k = true) ∧
    (∀ env evt, hasKey (emitEvent env evt ((getListeners (.str k) s).2)) k = true) ∧
    (∀ e, hasKey (defineEvent e ((getListeners (.str k) s).2)) k = true) ∧
    (∀ v, hasKey (setOnceReturnValue v ((getListeners (.str k) s).2)) k = true) ∧
    (∀ evt, hasKey ((getListeners evt ((getListeners (.str k) s).2)).2) k = true) := by
  have hbase : hasKey ((getListeners (.str k) s).2) k = true := by
    cases hk : eventsGet? s k with
    | some l =>
      rw [getListeners_str_present k s l hk]
      simp [hasKey, hk]
    | none =>
      rw [getListeners_str_absent k s hk]
      exact hasKey_set_self s k []
  refine ⟨?_, ?_, hbase, ?_, ?_, ?_, ?_, ?_, ?_, ?_⟩
  · intro l hl; exact getListeners_str_present k s l hl
  · intro hn
    exact ⟨getListeners_str_absent k s hn, eventsGet?_set_self s k [],
      fun k' hk' => eventsGet?_set_ne s k k' [] hk'⟩
  · intro evt arg; exact hasKey_addListener evt arg _ k hbase
  · intro evt f; exact hasKey_addOnceListener evt f _ k hbase
  · intro evt arg; exact hasKey_removeListener evt arg _ k hbase
  · intro env evt; exact hasKey_emitEvent env evt _ k hbase
  · intro e; exact hasKey_defineEvent e _ k hbase
  · intro v; exact hasKey_setOnceReturnValue v _ k hbase
  · intro evt; exact hasKey_getListeners evt _ k hbase

theorem getListeners_exact_materializes_persists_witness :
    getListeners (EvtArg.str "a") (EmitterState.mk [] none)
      = (GetListenersResult.arr [],
         eventsSet (EmitterState.mk [] none) "a" []) := by
  have h := getListeners_exact_materializes_persists "a" (EmitterState.mk [] none)
  exact (h.2.1 rfl).1

/-- Claim C8.  Listeners fire in registration order: adding `f1`, `f2`, `f3`
(pairwise distinct) in that order under `k` and emitting once invokes them
in exactly that order, whatever the listener bodies do. -/
theorem emit_registration_order (k : String) (f1 f2 f3 : Nat) (env : Env)
    (h12 : f1 ≠ f2) (h13 : f1 ≠ f3) (h23 : f2 ≠ f3) :
    (emitEventTrace env (.str k)
      (addListener (.str k) (.raw f3)
        (addListener (.str k) (.raw f2)
          (addListener (.str k) (.raw f1) (EmitterState.mk [] none))))).2
    = [f1, f2, f3] := by
  have h0 : eventsGet? (EmitterState.mk [] none) k = none := rfl
  rw [addListener_str_raw_absent k f1 (EmitterState.mk [] none) h0]
  have h1 : eventsGet? (eventsSet (EmitterState.mk [] none) k
      [ListenerRecord.mk f1 false]) k = some [ListenerRecord.mk f1 false] :=
    eventsGet?_set_self _ k _
  rw [addListener_str_raw k f2 _ _ h1]
  have hi2 : findRecIdx [ListenerRecord.mk f1 false] f2 = -1 := by
    simp [findRecIdx, h12]
  rw [if_pos hi2, eventsSet_eventsSet]
  have h2 : eventsGet? (eventsSet (EmitterState.mk [] none) k
      ([ListenerRecord.mk f1 false] ++ [ListenerRecord.mk f2 false])) k
      = some ([ListenerRecord.mk f1 false] ++ [ListenerRecord.mk f2 false]) :=
    eventsGet?_set_self _ k _
  rw [addListener_str_raw k f3 _ _ h2]
  have hi3 : findRecIdx
      ([ListenerRecord.mk f1 false] ++ [ListenerRecord.mk f2 false]) f3 = -1 := by
    simp [findRecIdx, h13, h23]
  rw [if_pos hi3, eventsSet_eventsSet]
  rw [emit_trace_str env k _ _ (eventsGet?_set_self _ k _)]
  simp

theorem emit_registration_order_witness :
    (emitEventTrace (fun _ => Behavior.mk [] JsVal.undef) (EvtArg.str "k")
      (addListener (EvtArg.str "k") (ListenerArg.raw 3)
        (addListener (EvtArg.str "k") (ListenerArg.raw 2)
          (addListener (EvtArg.str "k") (ListenerArg.raw 1)
            (EmitterState.mk [] none))))).2
    = [1, 2, 3] :=
  emit_registration_order "k" 1 2 3 (fun _ => Behavior.mk [] JsVal.undef)
    (by decide) (by decide) (by decide)

/-- Claim C4.  With the once-sentinel at its current value (the value last
set by `setOnceReturnValue`, or the default `true`), in a state whose
listeners under `k` are pure (perform no registry calls) and pairwise
distinct, a non-once listener `g` registered under `k` survives one
`emitEvent(k)` exactly when its return value differs from the sentinel.
Also: `setOnceReturnValue` sets the sentinel and the unset default is the
boolean `true`. -/
theorem emit_sentinel_removal (env : Env) (k : String) (s : EmitterState)
    (l : List ListenerRecord) (g : Nat)
    (hl : eventsGet? s k = some l)
    (hpure : ∀ r ∈ l, (env r.listener).ops = [])
    (hnd : (l.map (fun x => x.listener)).Nodup)
    (hg : ListenerRecord.mk g false ∈ l) :
    (g ∈ (eventsGet (emitEvent env (.str k) s) k).map (fun r => r.listener)
      ↔ (env g).ret ≠ getOnceReturnValue s) ∧
    (∀ (v : JsVal) (s' : EmitterState),
      getOnceReturnValue (setOnceReturnValue v s') = v) ∧
    (∀ s' : EmitterState, s'.onceReturnValue = none →
      getOnceReturnValue s' = JsVal.bool true) := by
  refine ⟨?_, fun v s' => rfl, fun s' h' => by rw [getOnceReturnValue, h']⟩
  rw [emit_str_pure env k s l hl hpure hnd, eventsGet_set_self]
  constructor
  · intro hmem
    obtain ⟨r, hr, hrg⟩ := List.mem_map.mp hmem
    obtain ⟨hrl, hkeep⟩ := List.mem_filter.mp hr
    have hreq : r = ListenerRecord.mk g false :=
      List.inj_on_of_nodup_map hnd hrl hg (by rw [hrg])
    rw [hreq] at hkeep
    simpa [keepAfterEmit] using hkeep
  · intro hne
    apply List.mem_map.mpr
    refine ⟨ListenerRecord.mk g false, List.mem_filter.mpr ⟨hg, ?_⟩, rfl⟩
    simp [keepAfterEmit, hne]

theorem emit_sentinel_removal_witness :
    (2 ∈ (eventsGet (emitEvent
        (fun n => Behavior.mk [] (if n = 1 then JsVal.bool true else JsVal.num 5))
        (EvtArg.str "k")
        (EmitterState.mk [("k", [ListenerRecord.mk 1 false,
          ListenerRecord.mk 2 false])] none)) "k").map (fun r => r.listener)
      ↔ JsVal.num 5 ≠ JsVal.bool true) :=
  (emit_sentinel_removal
    (fun n => Behavior.mk [] (if n = 1 then JsVal.bool true else JsVal.num 5))
    "k"
    (EmitterState.mk [("k", [ListenerRecord.mk 1 false,
      ListenerRecord.mk 2 false])] none)
    [ListenerRecord.mk 1 false, ListenerRecord.mk 2 false] 2
    (by decide) (fun r _ => rfl) (by decide) (by decide)).1

/-- Claim C5.  After `addOnceListener(k, f)` on a state where `f` is not yet
under `k` (listeners under `k` pure and pairwise distinct), one
`emitEvent(k)` leaves no record for `f` under `k`, and a second emission
does not invoke `f`.  Moreover a once-record is removed from the live
sequence BEFORE its callback runs: a once-callback that re-adds itself
during its own invocation is not blocked by the dedup check and ends up
re-registered (last conjunct). -/
theorem emit_once_removal (env : Env) (k : String) (s : EmitterState)
    (l : List ListenerRecord) (f : Nat)
    (hl : eventsGet? s k = some l)
    (hpure : ∀ r ∈ l, (env r.listener).ops = [])
    (hpf : (env f).ops = [])
    (hnd : (l.map (fun x => x.listener)).Nodup)
    (hf : f ∉ l.map (fun x => x.listener)) :
    f ∉ (eventsGet (emitEvent env (.str k)
        (addOnceListener (.str k) f s)) k).map (fun r => r.listener) ∧
    f ∉ (emitEventTrace env (.str k)
        (emitEvent env (.str k) (addOnceListener (.str k) f s))).2 ∧
    eventsGet (emitEvent
        (fun _ => Behavior.mk [RegOp.opAdd (EvtArg.str "e") 5] JsVal.undef)
        (EvtArg.str "e")
        (EmitterState.mk [("e", [ListenerRecord.mk 5 true])] none)) "e"
      = [ListenerRecord.mk 5 false] := by
  have hadd : addOnceListener (.str k) f s
      = eventsSet s k (l ++ [ListenerRecord.mk f true]) :=
    addOnceListener_str k f s l hl
  have h2 : eventsGet? (addOnceListener (.str k) f s) k
      = some (l ++ [ListenerRecord.mk f true]) := by
    rw [hadd]; exact eventsGet?_set_self s k _
  have hpure2 : ∀ r ∈ l ++ [ListenerRecord.mk f true],
      (env r.listener).ops = [] := by
    intro r hr
    rcases List.mem_append.mp hr with hr | hr
    · exact hpure r hr
    · rw [List.mem_singleton] at hr
      rw [hr]; exact hpf
  have hnd2 : ((l ++ [ListenerRecord.mk f true]).map
      (fun x => x.listener)).Nodup := by
    rw [List.map_append, List.nodup_append]
    refine ⟨hnd, by simp, ?_⟩
    intro a ha hb
    simp only [List.map_cons, List.map_nil, List.mem_singleton] at hb
    rw [hb] at ha
    exact hf ha
  have hemit := emit_str_pure env k (addOnceListener (.str k) f s)
    (l ++ [ListenerRecord.mk f true]) h2 hpure2 hnd2
  have hS : getOnceReturnValue (addOnceListener (.str k) f s)
      = getOnceReturnValue s := by rw [hadd]; rfl
  rw [hS] at hemit
  have hfilter : (l ++ [ListenerRecord.mk f true]).filter
      (keepAfterEmit env (getOnceReturnValue s))
      = l.filter (keepAfterEmit env (getOnceReturnValue s)) := by
    rw [List.filter_append]
    have hone : [ListenerRecord.mk f true].filter
        (keepAfterEmit env (getOnceReturnValue s)) = [] := by
      simp [keepAfterEmit]
    rw [hone, List.append_nil]
  rw [hfilter] at hemit
  have hnotin : f ∉ (l.filter (keepAfterEmit env
      (getOnceReturnValue s))).map (fun r => r.listener) := by
    intro hmem
    obtain ⟨r, hr, hrg⟩ := List.mem_map.mp hmem
    exact hf (List.mem_map.mpr ⟨r, (List.mem_filter.mp hr).1, hrg⟩)
  refine ⟨?_, ?_, by decide⟩
  · rw [hemit, eventsGet_set_self]
    exact hnotin
  · rw [hemit]
    rw [emit_trace_str env k _ _ (eventsGet?_set_self _ k _)]
    exact hnotin

theorem emit_once_removal_witness :
    (7 : Nat) ∉ (eventsGet (emitEvent (fun _ => Behavior.mk [] JsVal.undef)
        (EvtArg.str "k")
        (addOnceListener (EvtArg.str "k") 7
          (EmitterState.mk [("k", [])] none))) "k").map
        (fun r => r.listener) :=
  (emit_once_removal (fun _ => Behavior.mk [] JsVal.undef) "k"
    (EmitterState.mk [("k", [])] none) [] 7
    (by decide) (fun r hr => rfl) rfl (by decide) (by decide)).1

end EventEmitterJs
